import Mathlib

/-!
Shallow embedding of `app.py` (ERA5 interactive monthly-map viewer) and proofs
about its behaviour.  Machine floats are modelled as exact rationals; an IEEE
NaN is modelled as `none` in `Option ℚ`.  A gridded field is a flat list of
such values.
-/

namespace ERA5

/-- A scalar cell of a data array: `none` models NaN, `some q` a finite value. -/
abbrev NFloat := Option ℚ

/-- A gridded field, flattened to a list of cells. -/
abbrev Field := List NFloat

/-- Metadata row of the `SURFACE` / `PRESSURE` tables:
`(domain, code, vname, units, cmap_abs, cmap_anom)`. -/
structure VarInfo where
  domain : String
  code : String
  vname : String
  units : String
  cmapAbs : String
  cmapAnom : String
deriving DecidableEq

/-- The `SURFACE` table of `app.py` (lines 18-27). -/
def SURFACE : List (String × VarInfo) :=
  [ ("Sea-surface temperature", ⟨"sfc", "034", "sstk", "°C", "thermal", "RdBu_r"⟩),
    ("CAPE",                    ⟨"sfc", "059", "cape", "J kg⁻¹", "viridis", "PuOr"⟩),
    ("Surface geopotential",    ⟨"sfc", "129", "z", "m² s⁻²", "magma", "RdBu_r"⟩),
    ("Surface pressure",        ⟨"sfc", "134", "sp", "hPa", "icefire", "RdBu_r"⟩),
    ("Mean sea-level press.",   ⟨"sfc", "151", "msl", "hPa", "icefire", "RdBu_r"⟩),
    ("10-m zonal wind",         ⟨"sfc", "165", "10u", "m s⁻¹", "curl", "RdBu_r"⟩),
    ("10-m meridional wind",    ⟨"sfc", "166", "10v", "m s⁻¹", "curl_r", "RdBu_r"⟩),
    ("2-m temperature",         ⟨"sfc", "167", "2t", "°C", "thermal", "RdBu_r"⟩) ]

/-- The `PRESSURE` table of `app.py` (lines 29-41). -/
def PRESSURE : List (String × VarInfo) :=
  [ ("Potential vorticity", ⟨"pl", "060", "pv", "PVU", "plasma", "RdBu_r"⟩),
    ("Geopotential",        ⟨"pl", "129", "z", "m² s⁻²", "magma", "RdBu_r"⟩),
    ("Temperature",         ⟨"pl", "130", "t", "K", "thermal", "RdBu_r"⟩),
    ("Zonal wind",          ⟨"pl", "131", "u", "m s⁻¹", "curl", "RdBu_r"⟩),
    ("Meridional wind",     ⟨"pl", "132", "v", "m s⁻¹", "curl_r", "RdBu_r"⟩),
    ("Specific humidity",   ⟨"pl", "133", "q", "kg kg⁻¹", "viridis", "BrBG"⟩),
    ("Vertical velocity",   ⟨"pl", "135", "w", "Pa s⁻¹", "icefire", "RdBu"⟩),
    ("Relative vorticity",  ⟨"pl", "138", "vo", "s⁻¹", "plasma", "RdBu_r"⟩),
    ("Divergence",          ⟨"pl", "155", "d", "s⁻¹", "plasma", "RdBu_r"⟩),
    ("Relative humidity",   ⟨"pl", "157", "r", "%", "viridis", "BrBG"⟩),
    ("Ozone",               ⟨"pl", "203", "o3", "kg kg⁻¹", "viridis", "RdBu_r"⟩) ]

/-- The sidebar selection (lines 45-54): on the `Surface` branch the variable
comes from `SURFACE` and `plevel = None`; on the pressure-level branch it comes
from `PRESSURE` and `plevel` is the chosen level. -/
def appSelection (surface : Bool) (choice : String) (lvl : Nat) :
    Option (VarInfo × Option Nat) :=
  if surface then (SURFACE.lookup choice).map (fun i => (i, none))
  else (PRESSURE.lookup choice).map (fun i => (i, some lvl))

/-- `rda_url` of `app.py` (lines 66-73), with the year as a natural number. -/
def rda_url (y : Nat) (dom code var : String) : String :=
  let base := "https://thredds.rda.ucar.edu/thredds/dodsC/files/g/d633001_nc/"
  let tail :=
    if dom = "sfc" then
      "e5.moda.an.sfc.128_" ++ code ++ "_" ++ var ++ ".ll025sc."
    else
      let extra := if var = "u" ∨ var = "v" then "uv" else "sc"
      "e5.moda.an.pl.128_" ++ code ++ "_" ++ var ++ ".ll025" ++ extra ++ "."
  base ++ "e5.moda.an." ++ dom ++ "/" ++ toString y ++ "/" ++ tail ++
    toString y ++ "010100_" ++ toString y ++ "120100.nc"

/-- Grid suffix as described by the specification: `uv` exactly when the domain
is `pl` and the variable name is `u` or `v`, and `sc` in every other case. -/
def claimedSuffix (dom var : String) : String :=
  if dom = "pl" ∧ (var = "u" ∨ var = "v") then "uv" else "sc"

/-- Dataset URL as described by the specification sentence for claim C1. -/
def claimedURL (y : Nat) (dom code var : String) : String :=
  "https://thredds.rda.ucar.edu/thredds/dodsC/files/g/d633001_nc/" ++
    "e5.moda.an." ++ dom ++ "/" ++ toString y ++ "/" ++
    "e5.moda.an." ++ dom ++ ".128_" ++ code ++ "_" ++ var ++
    ".ll025" ++ claimedSuffix dom var ++ "." ++
    toString y ++ "010100_" ++ toString y ++ "120100.nc"

/-- The remote slice request issued by lines 111-114 of `app.py`: the dataset
URL, the zero-based time index (`isel(time=mon-1)`) and the optional pressure
level (`sel(level=plevel)` when `plevel is not None`). -/
structure FetchPlan where
  url : String
  timeIndex : Nat
  levelSel : Option Nat
deriving DecidableEq

/-- Lines 111-114 of `app.py`, as a pure description of the requested slice. -/
def monthlyFieldPlan (y mon : Nat) (info : VarInfo) (plevel : Option Nat) :
    FetchPlan :=
  { url := rda_url y info.domain info.code info.vname
    timeIndex := mon - 1
    levelSel := plevel }

/-- Python `str.upper()` restricted to the ASCII variable names the app uses:
upper-case every character. -/
def pyUpper (s : String) : String := ⟨s.data.map Char.toUpper⟩

/-- Python `str.replace(pat, rep)` for a non-empty pattern: replace the
non-overlapping occurrences of `pat` left to right (an empty pattern is left
untouched; the app only ever replaces the non-empty pattern `"10"`). -/
def replaceList (pat rep : List Char) : List Char → List Char
  | [] => []
  | c :: cs =>
    if h : pat ≠ [] ∧ pat.isPrefixOf (c :: cs) then
      rep ++ replaceList pat rep ((c :: cs).drop pat.length)
    else
      c :: replaceList pat rep cs
termination_by l => l.length
decreasing_by
  · have hlen : 1 ≤ pat.length := by
      cases pat with
      | nil => exact absurd rfl h.1
      | cons _ _ => simp
    simp only [List.length_drop, List.length_cons]
    omega
  · simp

/-- Python `str.replace` on strings, via `replaceList`. -/
def pyReplace (s pat rep : String) : String := ⟨replaceList pat.data rep.data s.data⟩

/-- `find_var` of `app.py` (lines 79-83): return the first of the three
candidate keys present in the dataset (modelled by its list of keys), else
raise `KeyError(short)` (modelled as `Except.error short`). -/
def find_var (ds : List String) (short : String) : Except String String :=
  let up := pyUpper short
  match [up, "VAR_" ++ up, pyReplace up "10" "10M"].find? (fun k => decide (k ∈ ds)) with
  | some k => Except.ok k
  | none => Except.error short

/-- Lookup order as described by claim C8: try the upper-cased name, then the
`VAR_` prefixed form, then the `10`-to-`10M` rewritten form, in this order, and
fail with the original short name when none is present. -/
def findVarClaim (ds : List String) (short : String) : Except String String :=
  if pyUpper short ∈ ds then Except.ok (pyUpper short)
  else if ("VAR_" ++ pyUpper short) ∈ ds then Except.ok ("VAR_" ++ pyUpper short)
  else if pyReplace (pyUpper short) "10" "10M" ∈ ds then
    Except.ok (pyReplace (pyUpper short) "10" "10M")
  else Except.error short

/-- Unit conversions of `app.py` (lines 116-118): two successive `if`
statements rebinding `(da, units)`.  NaN cells stay NaN under arithmetic. -/
def convertUnits (vname : String) (da : Field) (units : String) : Field × String :=
  let p1 :=
    if vname = "sstk" ∨ vname = "2t" ∨ vname = "t" then
      (da.map (Option.map (fun x => x - 273.15)), "°C")
    else (da, units)
  if vname = "sp" ∨ vname = "msl" then
    (p1.1.map (Option.map (fun x => x / 100.0)), "hPa")
  else p1

/-- The climatology file path of `load_clim` (lines 86-88), relative to the
directory holding `app.py`; `none` prints as Python's `None`. -/
def optStr : Option Nat → String
  | some n => toString n
  | none => "None"

/-- The path `CLIM_DIR / ("sfc" if dom=="sfc" else "pl") / (f"{var}.nc" if
dom=="sfc" else f"{var}_{lvl}.nc")` of lines 87-88. -/
def climPath (dom var : String) (lvl : Option Nat) : String :=
  "climatology" ++ "/" ++ (if dom = "sfc" then "sfc" else "pl") ++ "/" ++
    (if dom = "sfc" then var ++ ".nc" else var ++ "_" ++ optStr lvl ++ ".nc")

/-- Pointwise subtraction of two aligned fields (xarray `da - clim`); a NaN on
either side gives NaN. -/
def fieldSub (a b : Field) : Field :=
  List.zipWith
    (fun x y => match x, y with
      | some u, some v => some (u - v)
      | _, _ => none) a b

/-- What the app displays: the field, the colormap and the units label. -/
structure DisplayState where
  field : Field
  cmap : String
  units : String
deriving DecidableEq

/-- Lines 120-126 of `app.py`: when the anomaly checkbox is on, subtract the
month-`mon` slice of the climatology, switch to the anomaly colormap and
append " anomaly" to the units; otherwise keep everything unchanged.  The
climatology array is modelled as its month-indexed family of fields. -/
def applyAnomaly (showAnom : Bool) (da : Field) (cmapAbs cmapAnom units : String)
    (clim : Nat → Field) (mon : Nat) : DisplayState :=
  if showAnom then
    { field := fieldSub da (clim mon), cmap := cmapAnom, units := units ++ " anomaly" }
  else
    { field := da, cmap := cmapAbs, units := units }

/-- The rendered heatmap of lines 170-186: field, colormap, units label,
title, colour limits, coastline flag. -/
structure Figure where
  field : Field
  cmap : String
  unitsLabel : String
  title : String
  cmin : ℚ
  cmax : ℚ
  coast : Bool
deriving DecidableEq

/-- Lines 165-186 of `app.py`: report `"Min must be less than Max"` and stop
before rendering when `cmin >= cmax`, otherwise build the figure. -/
def finishRender (st : DisplayState) (title : String) (cmin cmax : ℚ)
    (showCoast : Bool) : Except String Figure :=
  if cmin ≥ cmax then Except.error "Min must be less than Max"
  else Except.ok ⟨st.field, st.cmap, st.units, title, cmin, cmax, showCoast⟩

/-- The non-NaN values of a field, in order (what numpy's nan-aware reductions
operate on). -/
def nanValues (xs : Field) : List ℚ := xs.filterMap id

/-- `np.nanmin`: minimum over the non-NaN values, NaN when there are none. -/
def nanmin (xs : Field) : Option ℚ :=
  match nanValues xs with
  | [] => none
  | v :: vs => some (vs.foldl min v)

/-- `np.nanmax`: maximum over the non-NaN values, NaN when there are none. -/
def nanmax (xs : Field) : Option ℚ :=
  match nanValues xs with
  | [] => none
  | v :: vs => some (vs.foldl max v)

/-- `np.abs` on a field: absolute value, NaN preserved. -/
def absField (xs : Field) : Field := xs.map (Option.map (fun x => |x|))

/-- Linear interpolation into a sorted sample, as numpy's default quantile
method does it: with `h = q*(n-1)` and `i = ⌊h⌋`, the value is
`ys[i] + (h - ⌊h⌋) * (ys[min (i+1) (n-1)] - ys[i])`. -/
def interpQ (ys : List ℚ) (q : ℚ) : ℚ :=
  let n := ys.length
  let h := q * ((n : ℚ) - 1)
  let i := (⌊h⌋).toNat
  let lo := ys.getD i 0
  let hi := ys.getD (min (i + 1) (n - 1)) 0
  lo + (h - ⌊h⌋) * (hi - lo)

/-- `np.nanquantile(xs, q)` with numpy's default linear interpolation: sort
the non-NaN values ascending and interpolate; NaN when every value is NaN. -/
def nanquantile (xs : Field) (q : ℚ) : Option ℚ :=
  match List.insertionSort (fun a b => a ≤ b) (nanValues xs) with
  | [] => none
  | ys => some (interpQ ys q)

/-- Lines 129-137 of `app.py`: the default colour limits are the symmetric
envelope of the absolute values for the anomaly view and the plain nan-min /
nan-max otherwise. -/
def defaultLimits (showAnom : Bool) (da : Field) : Option ℚ × Option ℚ :=
  if showAnom then
    ((nanmax (absField da)).map (fun m => -m), nanmax (absField da))
  else (nanmin da, nanmax da)

/-- Line 149 of `app.py`: `step = (default_max - default_min) / 50 or 1e-6`;
Python's `or` substitutes `1e-6` exactly when the quotient is the falsy 0.0. -/
def sliderStep (dmin dmax : ℚ) : ℚ :=
  let q := (dmax - dmin) / 50
  if q = 0 then 1e-6 else q

/-- Lines 151-163 of `app.py`: the colour limits are the two slider values,
except that pressing the auto-scale button replaces them by the 0.01 and 0.99
nan-quantiles of the displayed field for that run. -/
def colourLimits (sliderMin sliderMax : ℚ) (pressed : Bool) (da : Field) :
    Option ℚ × Option ℚ :=
  if pressed then (nanquantile da 0.01, nanquantile da 0.99)
  else (some sliderMin, some sliderMax)

/-- `np.mod(x, 360)`: the representative of `x` in `[0, 360)`. -/
def qmod360 (x : ℚ) : ℚ := x - 360 * ⌊x / 360⌋

/-- The inner loop of `coastlines_trace` (lines 102-105): emit each vertex of
a (longitude-reduced) line in order and insert a `(NaN, NaN)` break after a
vertex whenever the longitude jump to the next vertex exceeds `gap`. -/
def lineVertices (gap : ℚ) : List (ℚ × ℚ) → List (Option ℚ × Option ℚ)
  | [] => []
  | [v] => [(some v.1, some v.2)]
  | v :: w :: rest =>
    (some v.1, some v.2) ::
      ((if |w.1 - v.1| > gap then [((none : Option ℚ), (none : Option ℚ))] else []) ++
        lineVertices gap (w :: rest))

/-- One line of one geometry in `coastlines_trace` (lines 99-105): reduce the
longitudes modulo 360, emit a leading `(NaN, NaN)` break, then the vertices
with gap breaks. -/
def coastLine (gap : ℚ) (line : List (ℚ × ℚ)) : List (Option ℚ × Option ℚ) :=
  (none, none) :: lineVertices gap (line.map (fun p => (qmod360 p.1, p.2)))

/-- `coastlines_trace` (lines 92-108): the x/y polyline data of the coastline
overlay, assembled over every geometry and every line within it.  A geometry
is modelled as its list of lines (`getattr(geom, "geoms", [geom])`), each line
as its list of `(lon, lat)` vertices. -/
def coastlines_trace (gap : ℚ) (geoms : List (List (List (ℚ × ℚ)))) :
    List (Option ℚ × Option ℚ) :=
  geoms.flatMap (fun geom => geom.flatMap (coastLine gap))

/-- A plotted point recovered from a trace entry: `none` for a break. -/
def vertexOf : Option ℚ × Option ℚ → Option (ℚ × ℚ)
  | (some x, some y) => some (x, y)
  | _ => none

/-- No segment of the trace crosses a longitude jump wider than `gap`: two
adjacent entries that are both plotted points differ by at most `gap` in
longitude. -/
def jumpOK (gap : ℚ) (p q : Option ℚ × Option ℚ) : Prop :=
  ∀ x y, p.1 = some x → q.1 = some y → |y - x| ≤ gap

/-- A memo cache for one `@st.cache_resource` function, modelling Streamlit's
documented behaviour: an association of argument to stored result. -/
def cacheConsistent {α β : Type} (f : α → β) (c : List (α × β)) : Prop :=
  ∀ p ∈ c, p.2 = f p.1

/-- One call through `@st.cache_resource` (Streamlit's memoize-by-argument
caching, as the spec describes it): return the stored result when the argument
is cached, otherwise run the function once and store the result.  The final
component counts how often the underlying computation ran. -/
def cachedCall {α β : Type} [DecidableEq α] (f : α → β) (c : List (α × β)) (a : α) :
    β × List (α × β) × Nat :=
  match (c.find? (fun p => decide (p.1 = a))).map Prod.snd with
  | some b => (b, c, 0)
  | none => (f a, (a, f a) :: c, 1)

/-! Theorems. -/

theorem lookup_snd_mem {α β : Type} [BEq α] :
    ∀ (l : List (α × β)) (a : α) (b : β), l.lookup a = some b → b ∈ l.map Prod.snd := by
  intro l
  induction l with
  | nil => intro a b h; simp [List.lookup] at h
  | cons p t ih =>
    intro a b h
    rw [List.lookup] at h
    by_cases hb : a == p.1
    · simp [hb] at h; simp [h]
    · simp only [Bool.not_eq_true] at hb
      rw [hb] at h
      exact List.mem_cons_of_mem _ (ih a b h)

theorem rda_url_sfc (y : Nat) (code var : String) :
    rda_url y "sfc" code var = claimedURL y "sfc" code var := by
  apply String.ext
  simp [rda_url, claimedURL, claimedSuffix, String.data_append, List.append_assoc]

theorem rda_url_pl (y : Nat) (code var : String) :
    rda_url y "pl" code var = claimedURL y "pl" code var := by
  apply String.ext
  by_cases h : var = "u" ∨ var = "v" <;>
    simp [rda_url, claimedURL, claimedSuffix, h, String.data_append, List.append_assoc]

theorem SURFACE_domain : ∀ i ∈ SURFACE.map Prod.snd, i.domain = "sfc" := by decide

theorem PRESSURE_domain : ∀ i ∈ PRESSURE.map Prod.snd, i.domain = "pl" := by decide

/-- Claim C1: for every user selection the app requests the slice described by
the spec: the URL built by `rda_url` equals the base followed by
`e5.moda.an.{dom}/{y}/` and a tail whose grid suffix is `ll025uv` exactly when
the domain is `pl` and the variable is `u` or `v` (else `ll025sc`), ending
`{y}010100_{y}120100.nc`; the time index is `mon - 1`; and a pressure level is
selected if and only if the domain is the pressure-level one. -/
theorem fetch_plan_spec (surface : Bool) (choice : String) (lvl y mon : Nat)
    (info : VarInfo) (plevel : Option Nat)
    (h : appSelection surface choice lvl = some (info, plevel)) :
    (monthlyFieldPlan y mon info plevel).url =
      claimedURL y info.domain info.code info.vname ∧
    (monthlyFieldPlan y mon info plevel).timeIndex = mon - 1 ∧
    ((monthlyFieldPlan y mon info plevel).levelSel = some lvl ↔ info.domain = "pl") ∧
    ((monthlyFieldPlan y mon info plevel).levelSel = none ↔ info.domain = "sfc") := by
  cases surface with
  | true =>
    cases hlk : SURFACE.lookup choice with
    | none => rw [appSelection] at h; simp [hlk] at h
    | some i =>
      rw [appSelection] at h
      simp only [if_pos, hlk, Option.map_some', Option.some.injEq, Prod.mk.injEq] at h
      obtain ⟨hinfo, hlvl⟩ := h
      subst hinfo; subst hlvl
      have hdom : i.domain = "sfc" := SURFACE_domain i (lookup_snd_mem _ _ _ hlk)
      refine ⟨?_, rfl, ?_, ?_⟩
      · simp only [monthlyFieldPlan]
        rw [hdom]; exact rda_url_sfc y i.code i.vname
      · simp [monthlyFieldPlan, hdom]
      · simp [monthlyFieldPlan, hdom]
  | false =>
    cases hlk : PRESSURE.lookup choice with
    | none => rw [appSelection] at h; simp [hlk] at h
    | some i =>
      rw [appSelection] at h
      simp only [Bool.false_eq_true, if_false, hlk, Option.map_some', Option.some.injEq,
        Prod.mk.injEq] at h
      obtain ⟨hinfo, hlvl⟩ := h
      subst hinfo; subst hlvl
      have hdom : i.domain = "pl" := PRESSURE_domain i (lookup_snd_mem _ _ _ hlk)
      refine ⟨?_, rfl, ?_, ?_⟩
      · simp only [monthlyFieldPlan]
        rw [hdom]; exact rda_url_pl y i.code i.vname
      · simp [monthlyFieldPlan, hdom]
      · simp [monthlyFieldPlan, hdom]

/-- Witness for C1 at the selection (Pressure level, "Zonal wind", 500 hPa,
year 1980, month 1). -/
theorem fetch_plan_spec_witness :
    appSelection false "Zonal wind" 500 =
      some (⟨"pl", "131", "u", "m s⁻¹", "curl", "RdBu_r"⟩, some 500) ∧
    ((monthlyFieldPlan 1980 1 ⟨"pl", "131", "u", "m s⁻¹", "curl", "RdBu_r"⟩ (some 500)).url =
      claimedURL 1980 "pl" "131" "u" ∧
    (monthlyFieldPlan 1980 1 ⟨"pl", "131", "u", "m s⁻¹", "curl", "RdBu_r"⟩ (some 500)).timeIndex = 0 ∧
    ((monthlyFieldPlan 1980 1 ⟨"pl", "131", "u", "m s⁻¹", "curl", "RdBu_r"⟩ (some 500)).levelSel =
        some 500 ↔ ("pl" : String) = "pl") ∧
    ((monthlyFieldPlan 1980 1 ⟨"pl", "131", "u", "m s⁻¹", "curl", "RdBu_r"⟩ (some 500)).levelSel =
        none ↔ ("pl" : String) = "sfc")) :=
  ⟨by decide, fetch_plan_spec false "Zonal wind" 500 1980 1 _ _ (by decide)⟩

/-- Claim C8: `find_var` returns the first present key among the upper-cased
name, its `VAR_`-prefixed form and its `10`-to-`10M` rewritten form, in this
order, and raises `KeyError` with the original short name if and only if none
of the three is present. -/
theorem find_var_spec (ds : List String) (short : String) :
    find_var ds short = findVarClaim ds short ∧
    (∀ e, find_var ds short = Except.error e → e = short) ∧
    (find_var ds short = Except.error short ↔
      pyUpper short ∉ ds ∧ ("VAR_" ++ pyUpper short) ∉ ds ∧
        pyReplace (pyUpper short) "10" "10M" ∉ ds) := by
  by_cases h1 : pyUpper short ∈ ds <;>
    by_cases h2 : ("VAR_" ++ pyUpper short) ∈ ds <;>
      by_cases h3 : pyReplace (pyUpper short) "10" "10M" ∈ ds <;>
        simp [find_var, findVarClaim, List.find?, h1, h2, h3]

/-- Witness for C8 on a dataset exposing only the `VAR_`-prefixed key. -/
theorem find_var_spec_witness :
    find_var ["VAR_T"] "t" = findVarClaim ["VAR_T"] "t" ∧
    (∀ e, find_var ["VAR_T"] "t" = Except.error e → e = "t") ∧
    (find_var ["VAR_T"] "t" = Except.error "t" ↔
      pyUpper "t" ∉ ["VAR_T"] ∧ ("VAR_" ++ pyUpper "t") ∉ ["VAR_T"] ∧
        pyReplace (pyUpper "t") "10" "10M" ∉ ["VAR_T"]) :=
  find_var_spec ["VAR_T"] "t"

/-- Claim C5: the unit conversion decreases temperature fields (`sstk`, `2t`,
`t`) by 273.15 and relabels them °C, divides pressure fields (`sp`, `msl`) by
100 and relabels them hPa, and leaves every other variable's field and units
unchanged. -/
theorem unit_conversion_spec (vname : String) (da : Field) (units : String) :
    (vname = "sstk" ∨ vname = "2t" ∨ vname = "t" →
      convertUnits vname da units =
        (da.map (Option.map (fun x => x - 273.15)), "°C")) ∧
    (vname = "sp" ∨ vname = "msl" →
      convertUnits vname da units =
        (da.map (Option.map (fun x => x / 100.0)), "hPa")) ∧
    (¬(vname = "sstk" ∨ vname = "2t" ∨ vname = "t") →
      ¬(vname = "sp" ∨ vname = "msl") →
      convertUnits vname da units = (da, units)) := by
  refine ⟨?_, ?_, ?_⟩
  · intro h
    rcases h with h | h | h <;> subst h <;> simp [convertUnits]
  · intro h
    rcases h with h | h <;> subst h <;> simp [convertUnits]
  · intro h1 h2
    simp [convertUnits, h1, h2]

/-- Witness for C5 at the pressure-level temperature variable `t`. -/
theorem unit_conversion_spec_witness :
    (("t" : String) = "sstk" ∨ ("t" : String) = "2t" ∨ ("t" : String) = "t") ∧
    convertUnits "t" [some 300, none] "K" =
      ([some 300, none].map (Option.map (fun x => x - 273.15)), "°C") :=
  ⟨by decide, (unit_conversion_spec "t" [some 300, none] "K").1 (by decide)⟩

theorem fieldSub_getElem (a : Field) :
    ∀ (b : Field) (i : Nat) (x y : ℚ), a[i]? = some (some x) → b[i]? = some (some y) →
      (fieldSub a b)[i]? = some (some (x - y)) := by
  induction a with
  | nil => intro b i x y hx; simp at hx
  | cons u a ih =>
    intro b i x y hx hy
    cases b with
    | nil => simp at hy
    | cons v b =>
      cases i with
      | zero =>
        simp only [List.getElem?_cons_zero, Option.some.injEq] at hx hy
        subst hx; subst hy
        simp [fieldSub]
      | succ i =>
        simp only [List.getElem?_cons_succ] at hx hy
        simpa [fieldSub] using ih b i x y hx hy

theorem climPath_sfc (var : String) (lvl : Option Nat) :
    climPath "sfc" var lvl = "climatology/sfc/" ++ var ++ ".nc" := by
  apply String.ext
  simp [climPath, String.data_append, List.append_assoc]

theorem climPath_pl (var : String) (l : Nat) :
    climPath "pl" var (some l) =
      "climatology/pl/" ++ var ++ "_" ++ toString l ++ ".nc" := by
  apply String.ext
  simp [climPath, optStr, String.data_append, List.append_assoc]

/-- Claim C2: exactly when the anomaly checkbox is on, the displayed field is
the unit-converted monthly field minus the month-`mon` slice of the
climatology (pointwise), the colormap switches to the anomaly colormap and the
units gain the suffix " anomaly"; with it off everything is unchanged.  The
climatology is read from `sfc/{var}.nc` for surface variables and
`pl/{var}_{lvl}.nc` for pressure-level variables, inside the climatology
directory. -/
theorem anomaly_spec (da : Field) (cmapAbs cmapAnom units : String)
    (clim : Nat → Field) (mon : Nat) (var : String) (lvl : Option Nat) :
    applyAnomaly true da cmapAbs cmapAnom units clim mon =
      ⟨fieldSub da (clim mon), cmapAnom, units ++ " anomaly"⟩ ∧
    applyAnomaly false da cmapAbs cmapAnom units clim mon = ⟨da, cmapAbs, units⟩ ∧
    (∀ (i : Nat) (x y : ℚ), da[i]? = some (some x) → (clim mon)[i]? = some (some y) →
      (applyAnomaly true da cmapAbs cmapAnom units clim mon).field[i]? =
        some (some (x - y))) ∧
    climPath "sfc" var lvl = "climatology/sfc/" ++ var ++ ".nc" ∧
    (∀ l, climPath "pl" var (some l) =
      "climatology/pl/" ++ var ++ "_" ++ toString l ++ ".nc") := by
  refine ⟨by simp [applyAnomaly], by simp [applyAnomaly], ?_, climPath_sfc var lvl,
    fun l => climPath_pl var l⟩
  intro i x y hx hy
  simpa [applyAnomaly] using fieldSub_getElem da (clim mon) i x y hx hy

/-- Witness for C2 on a one-cell field with a one-cell climatology. -/
theorem anomaly_spec_witness :
    applyAnomaly true [some 5] "thermal" "RdBu_r" "°C" (fun _ => [some 2]) 3 =
      ⟨fieldSub [some 5] [some 2], "RdBu_r", "°C" ++ " anomaly"⟩ ∧
    applyAnomaly false [some 5] "thermal" "RdBu_r" "°C" (fun _ => [some 2]) 3 =
      ⟨[some 5], "thermal", "°C"⟩ ∧
    (∀ (i : Nat) (x y : ℚ), ([some 5] : Field)[i]? = some (some x) →
      ((fun _ : Nat => [some (2 : ℚ)]) 3)[i]? = some (some y) →
      (applyAnomaly true [some 5] "thermal" "RdBu_r" "°C" (fun _ => [some 2]) 3).field[i]? =
        some (some (x - y))) ∧
    climPath "sfc" "sstk" none = "climatology/sfc/" ++ "sstk" ++ ".nc" ∧
    (∀ l, climPath "pl" "sstk" (some l) =
      "climatology/pl/" ++ "sstk" ++ "_" ++ toString l ++ ".nc") :=
  anomaly_spec [some 5] "thermal" "RdBu_r" "°C" (fun _ => [some 2]) 3 "sstk" none

/-- Claim C3: after the sliders and the optional auto-scale button, the app
reports "Min must be less than Max" and stops (renders nothing) if and only if
`cmin >= cmax`; when `cmin < cmax` it renders the heatmap, and that error is
the only failure the rendering stage can produce. -/
theorem validation_spec (st : DisplayState) (title : String) (cmin cmax : ℚ)
    (showCoast : Bool) :
    (∀ e, finishRender st title cmin cmax showCoast = Except.error e ↔
      (cmin ≥ cmax ∧ e = "Min must be less than Max")) ∧
    ((∃ fig, finishRender st title cmin cmax showCoast = Except.ok fig) ↔
      cmin < cmax) ∧
    (cmin < cmax →
      finishRender st title cmin cmax showCoast =
        Except.ok ⟨st.field, st.cmap, st.units, title, cmin, cmax, showCoast⟩) := by
  by_cases h : cmin ≥ cmax
  · refine ⟨?_, ?_, ?_⟩
    · intro e; simp [finishRender, h, eq_comm]
    · constructor
      · simp [finishRender, h]
      · intro hlt; exact absurd hlt (not_lt.2 h)
    · intro hlt; exact absurd hlt (not_lt.2 h)
  · have hlt : cmin < cmax := not_le.1 h
    refine ⟨?_, ?_, ?_⟩
    · intro e; simp [finishRender, h]
    · simpa [finishRender, h] using hlt
    · intro _; simp [finishRender, h]

/-- Witness for C3 at the limits (0, 1). -/
theorem validation_spec_witness :
    (∀ e, finishRender ⟨[], "thermal", "K"⟩ "title" 0 1 true = Except.error e ↔
      ((0 : ℚ) ≥ 1 ∧ e = "Min must be less than Max")) ∧
    ((∃ fig, finishRender ⟨[], "thermal", "K"⟩ "title" 0 1 true = Except.ok fig) ↔
      (0 : ℚ) < 1) ∧
    ((0 : ℚ) < 1 →
      finishRender ⟨[], "thermal", "K"⟩ "title" 0 1 true =
        Except.ok ⟨[], "thermal", "K", "title", 0, 1, true⟩) :=
  validation_spec ⟨[], "thermal", "K"⟩ "title" 0 1 true

/-- Claim C7: a `@st.cache_resource` function is memoized purely by argument:
with a consistent cache, a call returns the function's value at the argument,
preserves every existing entry (no eviction or invalidation), and a repeat
call with an equal argument returns the same result while running the
underlying computation zero times; a call whose argument is already cached
runs the computation zero times and leaves the cache untouched. -/
theorem cache_resource_spec {α β : Type} [DecidableEq α] (f : α → β)
    (c : List (α × β)) (a : α) (hc : cacheConsistent f c) :
    (cachedCall f c a).1 = f a ∧
    cacheConsistent f (cachedCall f c a).2.1 ∧
    (∀ p ∈ c, p ∈ (cachedCall f c a).2.1) ∧
    (cachedCall f (cachedCall f c a).2.1 a).1 = (cachedCall f c a).1 ∧
    (cachedCall f (cachedCall f c a).2.1 a).2.2 = 0 ∧
    (∀ b, (c.find? (fun p => decide (p.1 = a))).map Prod.snd = some b →
      cachedCall f c a = (b, c, 0)) := by
  cases hfind : c.find? (fun p => decide (p.1 = a)) with
  | some p =>
    have hpa : p.1 = a := by
      have := List.find?_some hfind
      simpa using this
    have hmem : p ∈ c := List.mem_of_find?_eq_some hfind
    have hval : p.2 = f p.1 := hc p hmem
    have hcall : cachedCall f c a = (p.2, c, 0) := by
      simp [cachedCall, hfind]
    refine ⟨?_, ?_, ?_, ?_, ?_, ?_⟩
    · rw [hcall]; rw [hval, hpa]
    · rw [hcall]; exact hc
    · rw [hcall]; intro q hq; exact hq
    · rw [hcall]; simp [cachedCall, hfind]
    · rw [hcall]; simp [cachedCall, hfind]
    · intro b hb
      simp only [Option.map_some', Option.some.injEq] at hb
      rw [hcall, ← hb]
  | none =>
    have hcall : cachedCall f c a = (f a, (a, f a) :: c, 1) := by
      simp [cachedCall, hfind]
    have hfind2 : ((a, f a) :: c).find? (fun p => decide (p.1 = a)) = some (a, f a) := by
      simp [List.find?]
    refine ⟨?_, ?_, ?_, ?_, ?_, ?_⟩
    · rw [hcall]
    · rw [hcall]
      intro p hp
      rcases List.mem_cons.1 hp with h | h
      · subst h; rfl
      · exact hc p h
    · rw [hcall]; intro q hq; exact List.mem_cons_of_mem _ hq
    · rw [hcall]; simp [cachedCall, hfind2]
    · rw [hcall]; simp [cachedCall, hfind2]
    · intro b hb; simp at hb

/-- Witness for C7: the successor function cached from an empty cache at 0. -/
theorem cache_resource_spec_witness :
    cacheConsistent (fun n : Nat => n + 1) ([] : List (Nat × Nat)) ∧
    ((cachedCall (fun n : Nat => n + 1) [] 0).1 = 1 ∧
    cacheConsistent (fun n : Nat => n + 1) (cachedCall (fun n : Nat => n + 1) [] 0).2.1 ∧
    (∀ p ∈ ([] : List (Nat × Nat)), p ∈ (cachedCall (fun n : Nat => n + 1) [] 0).2.1) ∧
    (cachedCall (fun n : Nat => n + 1) (cachedCall (fun n : Nat => n + 1) [] 0).2.1 0).1 =
      (cachedCall (fun n : Nat => n + 1) [] 0).1 ∧
    (cachedCall (fun n : Nat => n + 1) (cachedCall (fun n : Nat => n + 1) [] 0).2.1 0).2.2 = 0 ∧
    (∀ b, (([] : List (Nat × Nat)).find? (fun p => decide (p.1 = 0))).map Prod.snd = some b →
      cachedCall (fun n : Nat => n + 1) [] 0 = (b, [], 0))) :=
  ⟨by simp [cacheConsistent],
    cache_resource_spec (fun n : Nat => n + 1) [] 0 (by simp [cacheConsistent])⟩

theorem foldl_min_le_seed : ∀ (vs : List ℚ) (v : ℚ), vs.foldl min v ≤ v := by
  intro vs
  induction vs with
  | nil => intro v; simp
  | cons a t ih =>
    intro v
    simp only [List.foldl_cons]
    exact le_trans (ih (min v a)) (min_le_left v a)

theorem foldl_min_le_mem : ∀ (vs : List ℚ) (v x : ℚ), x ∈ vs → vs.foldl min v ≤ x := by
  intro vs
  induction vs with
  | nil => intro v x h; simp at h
  | cons a t ih =>
    intro v x h
    rcases List.mem_cons.1 h with h | h
    · subst h
      simp only [List.foldl_cons]
      exact le_trans (foldl_min_le_seed t (min v x)) (min_le_right v x)
    · simp only [List.foldl_cons]
      exact ih (min v a) x h

theorem foldl_max_ge_seed : ∀ (vs : List ℚ) (v : ℚ), v ≤ vs.foldl max v := by
  intro vs
  induction vs with
  | nil => intro v; simp
  | cons a t ih =>
    intro v
    simp only [List.foldl_cons]
    exact le_trans (le_max_left v a) (ih (max v a))

theorem foldl_max_ge_mem : ∀ (vs : List ℚ) (v x : ℚ), x ∈ vs → x ≤ vs.foldl max v := by
  intro vs
  induction vs with
  | nil => intro v x h; simp at h
  | cons a t ih =>
    intro v x h
    rcases List.mem_cons.1 h with h | h
    · subst h
      simp only [List.foldl_cons]
      exact le_trans (le_max_right v x) (foldl_max_ge_seed t (max v x))
    · simp only [List.foldl_cons]
      exact ih (max v a) x h

theorem nanmin_le (xs : Field) (lo : ℚ) (h : nanmin xs = some lo) :
    ∀ x ∈ nanValues xs, lo ≤ x := by
  cases hv : nanValues xs with
  | nil => simp [nanmin, hv] at h
  | cons v vs =>
    simp only [nanmin, hv, Option.some.injEq] at h
    intro x hx
    rw [← h]
    rcases List.mem_cons.1 hx with hx | hx
    · subst hx; exact foldl_min_le_seed vs x
    · exact foldl_min_le_mem vs v x hx

theorem nanmax_ge (xs : Field) (hi : ℚ) (h : nanmax xs = some hi) :
    ∀ x ∈ nanValues xs, x ≤ hi := by
  cases hv : nanValues xs with
  | nil => simp [nanmax, hv] at h
  | cons v vs =>
    simp only [nanmax, hv, Option.some.injEq] at h
    intro x hx
    rw [← h]
    rcases List.mem_cons.1 hx with hx | hx
    · subst hx; exact foldl_max_ge_seed vs x
    · exact foldl_max_ge_mem vs v x hx

theorem nanmin_le_nanmax (xs : Field) (lo hi : ℚ) (h1 : nanmin xs = some lo)
    (h2 : nanmax xs = some hi) : lo ≤ hi := by
  cases hv : nanValues xs with
  | nil => simp [nanmin, hv] at h1
  | cons v vs =>
    simp only [nanmin, hv, Option.some.injEq] at h1
    simp only [nanmax, hv, Option.some.injEq] at h2
    calc lo = vs.foldl min v := h1.symm
    _ ≤ v := foldl_min_le_seed vs v
    _ ≤ vs.foldl max v := foldl_max_ge_seed vs v
    _ = hi := h2

theorem nanValues_absField (da : Field) :
    nanValues (absField da) = (nanValues da).map (fun x => |x|) := by
  induction da with
  | nil => rfl
  | cons u t ih =>
    cases u with
    | none =>
      simpa only [nanValues, absField, List.map_cons, Option.map_none',
        List.filterMap_cons_none, id] using ih
    | some a =>
      simpa only [nanValues, absField, List.map_cons, Option.map_some',
        List.filterMap_cons_some, id, List.map] using congrArg (List.cons |a|) ih

theorem nanmax_absField_nonneg (da : Field) (m : ℚ)
    (h : nanmax (absField da) = some m) : 0 ≤ m := by
  cases hv : nanValues (absField da) with
  | nil => simp [nanmax, hv] at h
  | cons v vs =>
    simp only [nanmax, hv, Option.some.injEq] at h
    have hvmem : v ∈ nanValues (absField da) := by
      rw [hv]; exact List.mem_cons_self v vs
    have hv0 : 0 ≤ v := by
      rw [nanValues_absField] at hvmem
      obtain ⟨x, _, hx⟩ := List.mem_map.1 hvmem
      rw [← hx]; exact abs_nonneg x
    calc (0 : ℚ) ≤ v := hv0
    _ ≤ vs.foldl max v := foldl_max_ge_seed vs v
    _ = m := h

/-- Claim C9: with the anomaly view on, the default colour limits are
symmetric about zero: the default max is the nan-ignoring maximum of the
absolute field (hence nonnegative) and the default min is its negation; with
the anomaly view off, they are exactly the field's nan-min and nan-max. -/
theorem default_limits_spec (da : Field) :
    (∀ m, nanmax (absField da) = some m →
      defaultLimits true da = (some (-m), some m) ∧ 0 ≤ m ∧ -m ≤ m) ∧
    defaultLimits false da = (nanmin da, nanmax da) := by
  refine ⟨?_, by simp [defaultLimits]⟩
  intro m h
  have h0 := nanmax_absField_nonneg da m h
  exact ⟨by simp [defaultLimits, h], h0, by linarith⟩

/-- Witness for C9 on the field `[1, NaN, -2]`. -/
theorem default_limits_spec_witness :
    nanmax (absField [some 1, none, some (-2)]) = some 2 ∧
    (defaultLimits true [some 1, none, some (-2)] = (some (-2), some 2) ∧
      (0 : ℚ) ≤ 2 ∧ (-2 : ℚ) ≤ 2) :=
  ⟨by with_unfolding_all decide,
    (default_limits_spec [some 1, none, some (-2)]).1 2 (by with_unfolding_all decide)⟩

/-- Claim C10: whenever the default limits are defined, the default min is at
most the default max, and the slider step `(default_max - default_min) / 50 or
1e-6` is strictly positive, so the sliders never get a zero step even for a
constant field. -/
theorem slider_step_spec (showAnom : Bool) (da : Field) (dmin dmax : ℚ)
    (h : defaultLimits showAnom da = (some dmin, some dmax)) :
    dmin ≤ dmax ∧ 0 < sliderStep dmin dmax := by
  have hle : dmin ≤ dmax := by
    cases showAnom with
    | true =>
      simp only [defaultLimits, if_pos, Prod.mk.injEq] at h
      obtain ⟨h1, h2⟩ := h
      rw [h2, Option.map_some', Option.some.injEq] at h1
      have h0 := nanmax_absField_nonneg da dmax h2
      rw [← h1]; linarith
    | false =>
      simp only [defaultLimits, Bool.false_eq_true, if_false, Prod.mk.injEq] at h
      exact nanmin_le_nanmax da dmin dmax h.1 h.2
  refine ⟨hle, ?_⟩
  have hq : 0 ≤ (dmax - dmin) / 50 := div_nonneg (by linarith) (by norm_num)
  by_cases h0 : (dmax - dmin) / 50 = 0
  · simp only [sliderStep, h0, if_pos]
    norm_num
  · simp only [sliderStep, if_neg h0]
    exact lt_of_le_of_ne hq (Ne.symm h0)

/-- Witness for C10 on the field `[1, 2]` with the anomaly view off. -/
theorem slider_step_spec_witness :
    defaultLimits false [some 1, some 2] = (some 1, some 2) ∧
    ((1 : ℚ) ≤ 2 ∧ 0 < sliderStep 1 2) :=
  ⟨by with_unfolding_all decide,
    slider_step_spec false [some 1, some 2] 1 2 (by with_unfolding_all decide)⟩

theorem interp_between (a b fr : ℚ) (hab : a ≤ b) (h0 : 0 ≤ fr) (h1 : fr ≤ 1) :
    a ≤ a + fr * (b - a) ∧ a + fr * (b - a) ≤ b := by
  constructor <;> nlinarith

theorem interpQ_bounds (ys : List ℚ) (hsort : List.Sorted (fun a b => a ≤ b) ys)
    (hne : ys ≠ []) (q : ℚ) (hq0 : 0 ≤ q) (hq1 : q ≤ 1) :
    ∃ a ∈ ys, ∃ b ∈ ys, a ≤ interpQ ys q ∧ interpQ ys q ≤ b := by
  have hlen : 0 < ys.length := List.length_pos.2 hne
  have hn1 : (1 : ℚ) ≤ (ys.length : ℚ) := by exact_mod_cast hlen
  set H := q * ((ys.length : ℚ) - 1) with hH
  have hH0 : 0 ≤ H := mul_nonneg hq0 (by linarith)
  have hH1 : H ≤ (ys.length : ℚ) - 1 := mul_le_of_le_one_left (by linarith) hq1
  have hfl0 : 0 ≤ ⌊H⌋ := Int.floor_nonneg.2 hH0
  have hfl1 : ⌊H⌋ ≤ (ys.length : ℤ) - 1 := by
    have h2 : ⌊H⌋ ≤ ⌊(ys.length : ℚ) - 1⌋ := Int.floor_le_floor hH1
    rwa [show ((ys.length : ℚ) - 1) = (((ys.length : ℤ) - 1 : ℤ) : ℚ) by push_cast; ring,
      Int.floor_intCast] at h2
  set i := (⌊H⌋).toNat with hidef
  have hicast : (i : ℤ) = ⌊H⌋ := Int.toNat_of_nonneg hfl0
  have hi_lt : i < ys.length := by omega
  set j := min (i + 1) (ys.length - 1) with hjdef
  have hj_lt : j < ys.length := by omega
  have hij : i ≤ j := by omega
  have hgi : ys.getD i 0 = ys.get ⟨i, hi_lt⟩ := by
    rw [List.getD_eq_getElem?_getD, List.getElem?_eq_getElem hi_lt]; rfl
  have hgj : ys.getD j 0 = ys.get ⟨j, hj_lt⟩ := by
    rw [List.getD_eq_getElem?_getD, List.getElem?_eq_getElem hj_lt]; rfl
  have hab : ys.getD i 0 ≤ ys.getD j 0 := by
    rw [hgi, hgj]
    exact hsort.rel_get_of_le (Fin.mk_le_mk.2 hij)
  have hfr0 : 0 ≤ H - ⌊H⌋ := sub_nonneg.2 (Int.floor_le H)
  have hfr1 : H - ⌊H⌋ ≤ 1 := by
    have := Int.lt_floor_add_one H
    linarith
  have hiq : interpQ ys q = ys.getD i 0 + (H - ⌊H⌋) * (ys.getD j 0 - ys.getD i 0) := by
    simp only [interpQ]
  have hbtw := interp_between (ys.getD i 0) (ys.getD j 0) (H - ⌊H⌋) hab hfr0 hfr1
  refine ⟨ys.getD i 0, ?_, ys.getD j 0, ?_, ?_, ?_⟩
  · rw [hgi]; exact ys.get_mem _ _
  · rw [hgj]; exact ys.get_mem _ _
  · rw [hiq]; exact hbtw.1
  · rw [hiq]; exact hbtw.2

/-- Claim C4: pressing the auto-scale button sets the colour limits to the
0.01 and 0.99 nan-ignoring quantiles of the displayed field, independently of
the slider values; moreover any quantile of the field (for `0 ≤ q ≤ 1`) lies
between the field's nan-min and nan-max, so the pair really brackets the
central range of the data. -/
theorem autoscale_spec (s1 s2 : ℚ) (da : Field) :
    colourLimits s1 s2 true da = (nanquantile da 0.01, nanquantile da 0.99) ∧
    (∀ t1 t2, colourLimits s1 s2 true da = colourLimits t1 t2 true da) ∧
    (∀ q v, 0 ≤ q → q ≤ 1 → nanquantile da q = some v →
      ∃ lo hi, nanmin da = some lo ∧ nanmax da = some hi ∧ lo ≤ v ∧ v ≤ hi) := by
  refine ⟨by simp [colourLimits], fun t1 t2 => by simp [colourLimits], ?_⟩
  intro q v hq0 hq1 hv
  cases hys : List.insertionSort (fun a b => a ≤ b) (nanValues da) with
  | nil => simp [nanquantile, hys] at hv
  | cons y t =>
    have hvv : v = interpQ (y :: t) q := by
      simp only [nanquantile, hys, Option.some.injEq] at hv
      exact hv.symm
    have hsort : List.Sorted (fun a b => a ≤ b) (y :: t) := by
      have := List.sorted_insertionSort (fun a b => a ≤ b) (nanValues da)
      rwa [hys] at this
    have hperm : (y :: t).Perm (nanValues da) := by
      have := List.perm_insertionSort (fun a b => a ≤ b) (nanValues da)
      rwa [hys] at this
    obtain ⟨a, ha, b, hb, hav, hvb⟩ :=
      interpQ_bounds (y :: t) hsort (by simp) q hq0 hq1
    have hamem : a ∈ nanValues da := hperm.mem_iff.1 ha
    have hbmem : b ∈ nanValues da := hperm.mem_iff.1 hb
    cases hval : nanValues da with
    | nil => rw [hval] at hamem; simp at hamem
    | cons w ws =>
      refine ⟨ws.foldl min w, ws.foldl max w, by simp [nanmin, hval],
        by simp [nanmax, hval], ?_, ?_⟩
      · have hla : ws.foldl min w ≤ a :=
          nanmin_le da _ (by simp [nanmin, hval]) a hamem
        rw [hvv]; exact le_trans hla hav
      · have hlb : b ≤ ws.foldl max w :=
          nanmax_ge da _ (by simp [nanmax, hval]) b hbmem
        rw [hvv]; exact le_trans hvb hlb

/-- Witness for C4: the 0-quantile of the field `[0, 1]` is bracketed by its
nan-min and nan-max. -/
theorem autoscale_spec_witness :
    (0 : ℚ) ≤ 0 ∧ (0 : ℚ) ≤ 1 ∧ nanquantile [some 0, some 1] 0 = some 0 ∧
    ∃ lo hi, nanmin [some 0, some 1] = some lo ∧ nanmax [some 0, some 1] = some hi ∧
      lo ≤ 0 ∧ (0 : ℚ) ≤ hi :=
  ⟨by decide, by decide, by with_unfolding_all decide,
    (autoscale_spec 5 7 [some 0, some 1]).2.2 0 0 (by decide) (by decide)
      (by with_unfolding_all decide)⟩

theorem lineVertices_cons (gap : ℚ) (v : ℚ × ℚ) (l : List (ℚ × ℚ)) :
    ∃ r, lineVertices gap (v :: l) = (some v.1, some v.2) :: r := by
  cases l with
  | nil => exact ⟨[], rfl⟩
  | cons w rest => exact ⟨_, rfl⟩

theorem jumpOK_of_fst_none (gap : ℚ) (p : Option ℚ × Option ℚ) (q : Option ℚ × Option ℚ)
    (h : q.1 = none) : jumpOK gap p q := by
  intro x y hx hy
  rw [h] at hy
  exact absurd hy (by simp)

theorem chain_lineVertices (gap : ℚ) : ∀ l, List.Chain' (jumpOK gap) (lineVertices gap l) := by
  intro l
  induction l with
  | nil => simp [lineVertices]
  | cons v t ih =>
    cases t with
    | nil => exact List.chain'_singleton _
    | cons w rest =>
      by_cases hg : |w.1 - v.1| > gap
      · simp only [lineVertices, if_pos hg, List.singleton_append]
        refine List.chain'_cons.2 ⟨jumpOK_of_fst_none gap _ _ rfl, ?_⟩
        refine List.chain'_cons'.2 ⟨?_, ih⟩
        intro y _
        intro a b hab
        exact absurd hab (by simp)
      · obtain ⟨r, hr⟩ := lineVertices_cons gap w rest
        simp only [lineVertices, if_neg hg, List.nil_append]
        rw [hr]
        refine List.chain'_cons.2 ⟨?_, ?_⟩
        · intro x y hx hy
          simp only [Option.some.injEq] at hx hy
          rw [← hx, ← hy]
          exact not_lt.1 hg
        · rw [← hr]; exact ih

theorem chain_coastLine (gap : ℚ) (line : List (ℚ × ℚ)) :
    List.Chain' (jumpOK gap) (coastLine gap line) := by
  refine List.chain'_cons'.2 ⟨?_, chain_lineVertices gap _⟩
  intro y _
  intro a b hab
  exact absurd hab (by simp)

theorem head_flatMap {α P : Type} (f : α → List P) :
    ∀ (ls : List α) (p : P), (ls.flatMap f).head? = some p →
      ∃ a ∈ ls, (f a).head? = some p := by
  intro ls
  induction ls with
  | nil => intro p h; simp at h
  | cons a t ih =>
    intro p h
    rw [List.flatMap_cons, List.head?_append] at h
    cases hfa : (f a).head? with
    | some q =>
      rw [hfa, Option.or_some] at h
      exact ⟨a, by simp, by rw [hfa]; exact h⟩
    | none =>
      rw [hfa] at h
      simp only [Option.none_or] at h
      obtain ⟨b, hb, h2⟩ := ih p h
      exact ⟨b, List.mem_cons_of_mem _ hb, h2⟩

theorem chain_flatMap {α P : Type} (R : P → P → Prop) (f : α → List P) :
    ∀ ls : List α, (∀ a ∈ ls, List.Chain' R (f a)) →
      (∀ a ∈ ls, ∀ p, (f a).head? = some p → ∀ q, R q p) →
      List.Chain' R (ls.flatMap f) := by
  intro ls
  induction ls with
  | nil => intro _ _; simp
  | cons a t ih =>
    intro hchain hhead
    rw [List.flatMap_cons, List.chain'_append]
    refine ⟨hchain a (by simp),
      ih (fun b hb => hchain b (List.mem_cons_of_mem _ hb))
        (fun b hb => hhead b (List.mem_cons_of_mem _ hb)), ?_⟩
    intro x _ y hy
    obtain ⟨b, hb, hbh⟩ := head_flatMap f t y hy
    exact hhead b (List.mem_cons_of_mem _ hb) y hbh x

theorem coastlines_chain (gap : ℚ) (geoms : List (List (List (ℚ × ℚ)))) :
    List.Chain' (jumpOK gap) (coastlines_trace gap geoms) := by
  refine chain_flatMap _ _ geoms (fun g _ => ?_) (fun g _ p hp q => ?_)
  · exact chain_flatMap _ _ g (fun line _ => chain_coastLine gap line)
      (fun line _ p hp q => by
        have hp1 : p.1 = none := by
          simp only [coastLine, List.head?_cons, Option.some.injEq] at hp
          rw [← hp]
        exact jumpOK_of_fst_none gap q p hp1)
  · obtain ⟨line, _, hph⟩ := head_flatMap (coastLine gap) g p hp
    have hp1 : p.1 = none := by
      simp only [coastLine, List.head?_cons, Option.some.injEq] at hph
      rw [← hph]
    exact jumpOK_of_fst_none gap q p hp1

theorem filterMap_lineVertices (gap : ℚ) :
    ∀ l, (lineVertices gap l).filterMap vertexOf = l := by
  intro l
  induction l with
  | nil => rfl
  | cons v t ih =>
    cases t with
    | nil =>
      show List.filterMap vertexOf [(some v.1, some v.2)] = [v]
      simp [vertexOf, List.filterMap_cons]
    | cons w rest =>
      by_cases hg : |w.1 - v.1| > gap <;>
        simp [lineVertices, hg, vertexOf, List.filterMap_cons, List.filterMap_append, ih]

theorem filterMap_coastLine (gap : ℚ) (line : List (ℚ × ℚ)) :
    (coastLine gap line).filterMap vertexOf =
      line.map (fun p => (qmod360 p.1, p.2)) := by
  simp [coastLine, vertexOf, List.filterMap_cons, filterMap_lineVertices]

theorem filterMap_flatMap_list {α P Q : Type} (f : P → Option Q) (g : α → List P) :
    ∀ ls : List α, (ls.flatMap g).filterMap f = ls.flatMap (fun a => (g a).filterMap f) := by
  intro ls
  induction ls with
  | nil => rfl
  | cons a t ih => simp only [List.flatMap_cons, List.filterMap_append, ih]

theorem mem_lineVertices (gap : ℚ) :
    ∀ l p, p ∈ lineVertices gap l →
      p = ((none : Option ℚ), (none : Option ℚ)) ∨ ∃ v ∈ l, p = (some v.1, some v.2) := by
  intro l
  induction l with
  | nil => intro p h; simp [lineVertices] at h
  | cons v t ih =>
    cases t with
    | nil =>
      intro p h
      simp only [lineVertices, List.mem_singleton] at h
      exact Or.inr ⟨v, by simp, h⟩
    | cons w rest =>
      intro p h
      simp only [lineVertices, List.mem_cons] at h
      rcases h with h | h
      · exact Or.inr ⟨v, by simp, h⟩
      · rcases List.mem_append.1 h with h | h
        · by_cases hg : |w.1 - v.1| > gap
          · rw [if_pos hg] at h
            simp only [List.mem_singleton] at h
            exact Or.inl h
          · rw [if_neg hg] at h
            simp at h
        · rcases ih p h with h | ⟨u, hu, hp⟩
          · exact Or.inl h
          · exact Or.inr ⟨u, List.mem_cons_of_mem _ hu, hp⟩

theorem qmod360_bounds (x : ℚ) : 0 ≤ qmod360 x ∧ qmod360 x < 360 := by
  have h360 : (0 : ℚ) < 360 := by norm_num
  have h1 : (⌊x / 360⌋ : ℚ) * 360 ≤ x := (le_div_iff₀ h360).1 (Int.floor_le (x / 360))
  have h2 : x < ((⌊x / 360⌋ : ℚ) + 1) * 360 := (div_lt_iff₀ h360).1 (Int.lt_floor_add_one (x / 360))
  constructor
  · simp only [qmod360]; nlinarith
  · simp only [qmod360]; nlinarith

/-- Claim C6: `coastlines_trace` assembles a single polyline with gap breaks:
the longitudes are reduced modulo 360 (so every plotted longitude lies in
`[0, 360)`), a break precedes each line, every vertex is emitted in order
(removing the breaks recovers exactly the longitude-reduced vertices of every
line of every geometry), and no two adjacent plotted points differ by more
than `gap` in longitude, so no segment is drawn across a jump wider than the
threshold. -/
theorem coastlines_trace_spec (gap : ℚ) (geoms : List (List (List (ℚ × ℚ)))) :
    List.Chain' (jumpOK gap) (coastlines_trace gap geoms) ∧
    (coastlines_trace gap geoms).filterMap vertexOf =
      geoms.flatMap (fun g => g.flatMap (fun line =>
        line.map (fun p => (qmod360 p.1, p.2)))) ∧
    (∀ p ∈ coastlines_trace gap geoms, ∀ x, p.1 = some x → 0 ≤ x ∧ x < 360) := by
  refine ⟨coastlines_chain gap geoms, ?_, ?_⟩
  · simp only [coastlines_trace, filterMap_flatMap_list, filterMap_coastLine]
  · intro p hp x hpx
    simp only [coastlines_trace, List.mem_flatMap] at hp
    obtain ⟨g, _, line, _, hpc⟩ := hp
    rcases List.mem_cons.1 hpc with h | h
    · rw [h] at hpx; exact absurd hpx (by simp)
    · rcases mem_lineVertices gap _ p h with h2 | ⟨u, hu, hp2⟩
      · rw [h2] at hpx; exact absurd hpx (by simp)
      · obtain ⟨w, _, hw⟩ := List.mem_map.1 hu
        rw [hp2] at hpx
        simp only [Option.some.injEq] at hpx
        rw [← hpx, ← hw]
        exact qmod360_bounds w.1

/-- Witness for C6 on one geometry with one two-vertex line crossing a wide
longitude jump. -/
theorem coastlines_trace_spec_witness :
    List.Chain' (jumpOK 10) (coastlines_trace 10 [[[(0, 0), (20, 1)]]]) ∧
    (coastlines_trace 10 [[[(0, 0), (20, 1)]]]).filterMap vertexOf =
      [[[((0 : ℚ), (0 : ℚ)), (20, 1)]]].flatMap (fun g => g.flatMap (fun line =>
        line.map (fun p => (qmod360 p.1, p.2)))) ∧
    (∀ p ∈ coastlines_trace 10 [[[(0, 0), (20, 1)]]], ∀ x, p.1 = some x →
      0 ≤ x ∧ x < 360) :=
  coastlines_trace_spec 10 [[[(0, 0), (20, 1)]]]

end ERA5
